import Mathlib

/-!
Verification development for the Tech-Trends-News-Agent repository.

The two core components are shallowly embedded here:
* `scripts/search_articles.py` — the TF-IDF retrieval engine
  (`tokenize`, `compute_tf`, `compute_df`, `tfidf_vector`, `cosine`,
  `search_corpus`).
* `scripts/react_agent.py` — the ReAct control loop
  (`parse_action`, `_parse_llm_output`, `run`, `_generate_fallback_answer`).

Python strings are modelled as `List Char`; Python dicts as association
lists with distinct keys (insertion order preserved, as in CPython);
Python floats as real numbers (exact real arithmetic, the idealised
semantics the spec itself uses: `ln`, `sqrt`, exact division).
-/

/-- Characters of a string literal (Python strings are modelled as `List Char`). -/
def chars (s : String) : List Char := s.data

/-- Python's `\s` character class / `str.strip()` whitespace set (ASCII part). -/
def isPySpace (c : Char) : Bool :=
  c = ' ' || c = '\t' || c = '\n' || c = '\x0d' || c = '\x0b' || c = '\x0c'

/-- Model of Python `str.strip()`: drop leading and trailing whitespace. -/
def pyStrip (l : List Char) : List Char :=
  ((l.dropWhile isPySpace).reverse.dropWhile isPySpace).reverse

/-- Model of Python `str.strip(c)` for a one-character argument: drop ALL
leading and trailing occurrences of `c` (not just one pair). -/
def pyStripChar (c : Char) (l : List Char) : List Char :=
  ((l.dropWhile (· = c)).reverse.dropWhile (· = c)).reverse

/-! ## Retrieval engine (`scripts/search_articles.py`) -/

/-- The character class `[a-zA-Z0-9']` of `tokenize`'s regex. -/
def isWordChar (c : Char) : Bool :=
  ('a' ≤ c && c ≤ 'z') || ('A' ≤ c && c ≤ 'Z') || ('0' ≤ c && c ≤ '9') || c = '\''

/-- Maximal runs of word characters, as found by
`re.findall(r"[a-zA-Z0-9']+", text)`. -/
def wordRuns : List Char → List (List Char)
  | [] => []
  | c :: r =>
    if isWordChar c then
      (c :: r.takeWhile isWordChar) :: wordRuns (r.dropWhile isWordChar)
    else wordRuns r
termination_by l => l.length
decreasing_by
  · exact Nat.lt_succ_of_le ((List.dropWhile_suffix isWordChar).sublist.length_le)
  · simp

/-- `tokenize(text)`: lowercase, then all maximal runs of `[a-zA-Z0-9']`
(ASCII model of `str.lower`). -/
def tokenize (text : List Char) : List (List Char) :=
  wordRuns (text.map Char.toLower)

/-- A term-weight vector: a Python dict from term to float, modelled as an
association list in insertion order with distinct keys. -/
def TWVec : Type := List (List Char × ℝ)

/-- Dict lookup with default (`d.get(k, 0.0)`); the dicts built below have
distinct keys, so first match is the only match. -/
noncomputable def dget (d : TWVec) (k : List Char) : ℝ := ((List.lookup k d).getD 0)

/-- Keys of a dict, in insertion order. -/
def dkeys (d : TWVec) : List (List Char) := d.map (·.1)

/-- `sum(v*v for v in a.values())`. -/
noncomputable def sumSq (d : TWVec) : ℝ := (d.map (fun p => p.2 * p.2)).sum

/-- Distinct elements of a token list in first-occurrence order: the key
order of a CPython dict built by iterating over the tokens. -/
def dedupFirst : List (List Char) → List (List Char)
  | [] => []
  | t :: r => t :: (dedupFirst r).filter (· ≠ t)

/-- `compute_tf(tokens)`: `{t: count(t)/max(1, len(tokens)) for t in counts}`,
keys in first-occurrence order. -/
noncomputable def compute_tf (tokens : List (List Char)) : TWVec :=
  (dedupFirst tokens).map fun t =>
    (t, (tokens.count t : ℝ) / ((max 1 tokens.length : ℕ) : ℝ))

/-- `compute_df(doc_tokens)[t]`: the number of documents whose token set
contains `t` (the defaultdict is modelled extensionally as a count). -/
def dfCount (docTokens : List (List (List Char))) (t : List Char) : ℕ :=
  (docTokens.filter (fun toks => decide (t ∈ toks))).length

/-- `idf.get(t, 0.0)` where `idf = {t: log((n+1)/(df[t]+0.5)) + 1 for t in df}`:
the dict's keys are exactly the terms with positive document frequency, so
absent terms take the `.get` default 0. -/
noncomputable def idfGet (docTokens : List (List (List Char))) (t : List Char) : ℝ :=
  if 0 < dfCount docTokens t then
    Real.log (((docTokens.length : ℝ) + 1) / ((dfCount docTokens t : ℝ) + 1/2)) + 1
  else 0

/-- `tfidf_vector(tokens, idf)`: `{t: tf[t] * idf.get(t, 0.0) for t in tf}`. -/
noncomputable def tfidf_vector (tokens : List (List Char)) (idf : List Char → ℝ) : TWVec :=
  (compute_tf tokens).map fun p => (p.1, p.2 * idf p.1)

/-- The `1e-12` guard of `cosine` (decimal literal modelled exactly). -/
noncomputable def cosEps : ℝ := 1 / 10 ^ 12

/-- `cosine(a, b)`: 0 if either dict is empty, else
`dot / (‖a‖·‖b‖ + 1e-12)` with the dot product summed over the union of
the two key sets. -/
noncomputable def cosine (a b : TWVec) : ℝ :=
  match a, b with
  | [], _ => 0
  | _, [] => 0
  | _, _ =>
    (((dkeys a).toFinset ∪ (dkeys b).toFinset).sum fun k => dget a k * dget b k) /
      (Real.sqrt (sumSq a) * Real.sqrt (sumSq b) + cosEps)

/-- One corpus document: `{id, tokens}` (`d.get("tokens", [])` is modelled by
the total `tokens` field; `title`/`url` are carried in the JSON but unused). -/
structure Document where
  id : List Char
  tokens : List (List Char)

/-- One search result `{id, score, snippet}`. -/
structure SearchResult where
  id : List Char
  score : ℝ
  snippet : List Char

/-- The order `sort(reverse=True)` uses on the `(score, index)` tuples:
descending lexicographic comparison (`p` comes no later than `q`). -/
def rkOrder (p q : ℝ × ℕ) : Prop := q.1 < p.1 ∨ (p.1 = q.1 ∧ q.2 ≤ p.2)

instance : IsTotal (ℝ × ℕ) rkOrder where
  total p q := by
    rcases lt_trichotomy p.1 q.1 with h | h | h
    · exact Or.inr (Or.inl h)
    · rcases Nat.le_total q.2 p.2 with h2 | h2
      · exact Or.inl (Or.inr ⟨h, h2⟩)
      · exact Or.inr (Or.inr ⟨h.symm, h2⟩)
    · exact Or.inl (Or.inl h)

instance : IsTrans (ℝ × ℕ) rkOrder where
  trans p q r hpq hqr := by
    rcases hpq with h1 | ⟨h1, h1'⟩
    · rcases hqr with h2 | ⟨h2, _⟩
      · exact Or.inl (h2.trans h1)
      · exact Or.inl (h2 ▸ h1)
    · rcases hqr with h2 | ⟨h2, h2'⟩
      · exact Or.inl (h1 ▸ h2)
      · exact Or.inr ⟨h1.trans h2, h2'.trans h1'⟩

/-- Python prefix slice `l[:k]` for an `int` bound `k` (negative bounds count
from the end). -/
def pySliceTo {α : Type} (l : List α) (k : ℤ) : List α :=
  if 0 ≤ k then l.take k.toNat else l.take (l.length - (-k).toNat)

/-- The per-document TF-IDF vectors (`doc_vecs`). -/
noncomputable def docVecs (corpus : List Document) : List TWVec :=
  corpus.map fun d => tfidf_vector d.tokens (idfGet (corpus.map Document.tokens))

/-- The query vector (`q_vec`). -/
noncomputable def qVec (query : List Char) (corpus : List Document) : TWVec :=
  tfidf_vector (tokenize query) (idfGet (corpus.map Document.tokens))

/-- `scored = [(cosine(q_vec, v), i) for i, v in enumerate(doc_vecs)]`. -/
noncomputable def scoredList (query : List Char) (corpus : List Document) : List (ℝ × ℕ) :=
  (docVecs corpus).enum.map fun iv => (cosine (qVec query corpus) iv.2, iv.1)

/-- `scored.sort(reverse=True)`: the `(score, index)` pairs in descending
lexicographic order.  All index components are distinct, so the sorted list
is the unique `rkOrder`-sorted permutation, independent of the algorithm. -/
noncomputable def sortedScored (query : List Char) (corpus : List Document) : List (ℝ × ℕ) :=
  @List.insertionSort _ rkOrder (fun a b => Classical.propDecidable (rkOrder a b))
    (scoredList query corpus)

/-- `scored[:k]` after the sort. -/
noncomputable def topScored (query : List Char) (corpus : List Document) (k : ℤ) :
    List (ℝ × ℕ) :=
  pySliceTo (sortedScored query corpus) k

/-- `" ".join(tokens)`. -/
def joinSpace (l : List (List Char)) : List Char := List.intercalate (chars " ") l

/-- Build one result row from a `(score, idx)` pair: id, score and a snippet
of the first 30 tokens (`enumerate` indices are always in range, so the
`getD` fallback document is never selected). -/
noncomputable def mkResult (corpus : List Document) (p : ℝ × ℕ) : SearchResult :=
  { id := ((corpus.get? p.2).getD ⟨[], []⟩).id
    score := p.1
    snippet := joinSpace ((((corpus.get? p.2).getD ⟨[], []⟩).tokens).take 30) }

/-- `search_corpus(query, corpus, k)`. -/
noncomputable def search_corpus (query : List Char) (corpus : List Document) (k : ℤ) :
    List SearchResult :=
  (topScored query corpus k).map (mkResult corpus)

/-! ## Claims C1, C6, C3 — the retrieval engine -/

lemma sortedScored_sorted (q : List Char) (c : List Document) :
    (sortedScored q c).Pairwise rkOrder := by
  unfold sortedScored
  letI : DecidableRel rkOrder := fun a b => Classical.propDecidable (rkOrder a b)
  exact List.sorted_insertionSort rkOrder _

lemma sortedScored_perm (q : List Char) (c : List Document) :
    List.Perm (sortedScored q c) (scoredList q c) := by
  unfold sortedScored
  letI : DecidableRel rkOrder := fun a b => Classical.propDecidable (rkOrder a b)
  exact List.perm_insertionSort rkOrder _

lemma scoredList_map_snd (q : List Char) (c : List Document) :
    (scoredList q c).map Prod.snd = List.range (docVecs c).length := by
  simp [scoredList, List.map_map, Function.comp_def]

lemma sortedScored_snd_ne (q : List Char) (c : List Document) :
    (sortedScored q c).Pairwise (fun p p' => p.2 ≠ p'.2) := by
  have hnd : ((scoredList q c).map Prod.snd).Nodup := by
    rw [scoredList_map_snd]
    exact List.nodup_range _
  have hnd2 : ((sortedScored q c).map Prod.snd).Nodup :=
    (((sortedScored_perm q c).map Prod.snd).nodup_iff).mpr hnd
  exact (List.pairwise_map.mp hnd2)

lemma topScored_sublist (q : List Char) (c : List Document) (k : ℤ) :
    List.Sublist (topScored q c k) (sortedScored q c) := by
  unfold topScored pySliceTo
  split <;> exact List.take_sublist _ _

/-- C1: `search(query, corpus, k)` returns at most `k` results, and the
returned scores are non-increasing in sequence order. -/
theorem search_corpus_at_most_k_and_scores_nonincreasing
    (q : List Char) (c : List Document) (k : ℤ) (hk : 0 < k) :
    (search_corpus q c k).length ≤ k.toNat ∧
    (search_corpus q c k).Chain' (fun r1 r2 => r2.score ≤ r1.score) := by
  constructor
  · unfold search_corpus topScored pySliceTo
    rw [List.length_map, if_pos hk.le]
    exact List.length_take_le _ _
  · have hs : (topScored q c k).Pairwise rkOrder :=
      (sortedScored_sorted q c).sublist (topScored_sublist q c k)
    unfold search_corpus
    rw [List.chain'_map]
    refine List.Pairwise.chain' (hs.imp ?_)
    intro a b h
    rcases h with h | ⟨h, _⟩
    · exact le_of_lt h
    · exact le_of_eq h.symm

/-- Witness for C1 at a concrete query, corpus and `k`. -/
theorem search_corpus_at_most_k_witness :
    (0 : ℤ) < 3 ∧
    ((search_corpus (chars "ai") [⟨chars "d1", [chars "ai", chars "news"]⟩] 3).length ≤
        (3 : ℤ).toNat ∧
      (search_corpus (chars "ai") [⟨chars "d1", [chars "ai", chars "news"]⟩] 3).Chain'
        (fun r1 r2 => r2.score ≤ r1.score)) :=
  ⟨by norm_num,
    search_corpus_at_most_k_and_scores_nonincreasing _ _ 3 (by norm_num)⟩

/-- C6: documents are ranked by `(score, index)` descending, so among the
returned (score, index) pairs an equal score means the earlier entry has
the strictly larger original corpus index; `search_corpus` is exactly the
image of these pairs under `mkResult`. -/
theorem search_ties_favor_larger_index (q : List Char) (c : List Document) (k : ℤ) :
    search_corpus q c k = (topScored q c k).map (mkResult c) ∧
    (topScored q c k).Pairwise (fun p p' => p.1 = p'.1 → p'.2 < p.2) := by
  refine ⟨rfl, ?_⟩
  have hs : (topScored q c k).Pairwise rkOrder :=
    (sortedScored_sorted q c).sublist (topScored_sublist q c k)
  have hn : (topScored q c k).Pairwise (fun p p' => p.2 ≠ p'.2) :=
    (sortedScored_snd_ne q c).sublist (topScored_sublist q c k)
  refine (hs.and hn).imp ?_
  intro a b h heq
  rcases h with ⟨h1 | ⟨_, h2⟩, hne⟩
  · exact absurd heq (ne_of_gt h1)
  · exact lt_of_le_of_ne h2 (Ne.symm hne)

lemma dot_self_eq_sumSq (a : TWVec) (hnd : (dkeys a).Nodup) :
    ((dkeys a).toFinset.sum fun k => dget a k * dget a k) = sumSq a := by
  induction a with
  | nil => simp [dkeys, sumSq]
  | cons p r ih =>
    obtain ⟨k0, v0⟩ := p
    rw [show dkeys ((k0, v0) :: r) = k0 :: dkeys r from rfl, List.nodup_cons] at hnd
    have hk0 : k0 ∉ dkeys r := hnd.1
    have hnd' : (dkeys r).Nodup := hnd.2
    have hins : (dkeys ((k0, v0) :: r)).toFinset = insert k0 (dkeys r).toFinset := by
      simp [dkeys]
    rw [hins, Finset.sum_insert (by simpa using hk0)]
    have hhead : dget ((k0, v0) :: r) k0 = v0 := by
      simp [dget, List.lookup]
    have htail : ∀ k ∈ (dkeys r).toFinset,
        dget ((k0, v0) :: r) k * dget ((k0, v0) :: r) k = dget r k * dget r k := by
      intro k hkmem
      have hne : (k == k0) = false := by
        rw [beq_eq_false_iff_ne]
        intro hkk
        exact hk0 (hkk ▸ List.mem_toFinset.mp hkmem)
      simp [dget, List.lookup, hne]
    rw [Finset.sum_congr rfl htail, ih hnd', hhead]
    simp [sumSq]

/-- C3 counterexample: for the non-zero vector `{"x": 1.0}`, the code's
`cosine(a, a)` is `1 / (1 + 1e-12)`, not `1` — the `1e-12` term added to
the denominator keeps the quotient strictly below 1. -/
theorem cosine_self_ne_one_cx :
    cosine [(chars "x", (1 : ℝ))] [(chars "x", (1 : ℝ))] ≠ 1 := by
  have h1 : cosine [(chars "x", (1 : ℝ))] [(chars "x", (1 : ℝ))] =
      1 / (1 + cosEps) := by
    simp [cosine, dkeys, dget, sumSq, List.lookup, Real.sqrt_one]
  rw [h1]
  have : (0 : ℝ) < cosEps := by norm_num [cosEps]
  intro hc
  rw [div_eq_one_iff_eq (by linarith)] at hc
  linarith

/-- C3 amended: for every term-weight vector `a` with distinct keys and
positive squared norm (a non-zero vector), `cosine(a, a)` equals
`‖a‖² / (‖a‖² + 1e-12)` and is therefore strictly less than 1. -/
theorem cosine_self_lt_one (a : TWVec) (hnd : (dkeys a).Nodup) (hpos : 0 < sumSq a) :
    cosine a a < 1 := by
  cases a with
  | nil => simp [sumSq] at hpos
  | cons p r =>
    have hred : cosine (p :: r) (p :: r) =
        ((dkeys (p :: r)).toFinset ∪ (dkeys (p :: r)).toFinset).sum
            (fun k => dget (p :: r) k * dget (p :: r) k) /
          (Real.sqrt (sumSq (p :: r)) * Real.sqrt (sumSq (p :: r)) + cosEps) := by
      simp [cosine]
    rw [hred, Finset.union_self, dot_self_eq_sumSq _ hnd,
      Real.mul_self_sqrt hpos.le]
    have heps : (0 : ℝ) < cosEps := by norm_num [cosEps]
    rw [div_lt_one (by linarith)]
    linarith

/-- Witness for C3's amended theorem at the concrete vector `{"q": 2.0}`. -/
theorem cosine_self_lt_one_witness :
    (dkeys [(chars "q", (2 : ℝ))]).Nodup ∧ 0 < sumSq [(chars "q", (2 : ℝ))] ∧
      cosine [(chars "q", (2 : ℝ))] [(chars "q", (2 : ℝ))] < 1 :=
  ⟨by simp [dkeys], by norm_num [sumSq],
    cosine_self_lt_one _ (by simp [dkeys]) (by norm_num [sumSq])⟩

/-! ## Action parser (`parse_action` in `scripts/react_agent.py`) -/

/-- Python `s.find(c)`: index of the first occurrence, if any. -/
def firstIdxOf (c : Char) : List Char → Option ℕ
  | [] => none
  | x :: r => if x = c then some 0 else (firstIdxOf c r).map (· + 1)

/-- Python `s.rfind(c)`: index of the last occurrence, if any. -/
def lastIdxOf (c : Char) (l : List Char) : Option ℕ :=
  (firstIdxOf c l.reverse).map (fun i => l.length - 1 - i)

/-- Python `s.split(",")`: split on every comma (no quote awareness). -/
def splitOnComma : List Char → List (List Char)
  | [] => [[]]
  | c :: r =>
    if c = ',' then [] :: splitOnComma r
    else
      match splitOnComma r with
      | [] => [[c]]
      | h :: t => (c :: h) :: t

/-- Python `field.split("=", 1)` when `"=" in field` (`none` when no `=`). -/
def splitEq : List Char → Option (List Char × List Char)
  | [] => none
  | c :: r =>
    if c = '=' then some ([], r) else (splitEq r).map (fun p => (c :: p.1, p.2))

/-- CPython dict assignment `d[k] = v`: an existing key keeps its position
and gets the new value; a new key is appended (last occurrence wins). -/
def dictSet (d : List (List Char × List Char)) (k v : List Char) :
    List (List Char × List Char) :=
  match d with
  | [] => [(k, v)]
  | (k', v') :: rest =>
    if k' = k then (k', v) :: rest else (k', v') :: dictSet rest k v

/-- The loop `for field in inner.split(","): if "=" in field:
`args[key.strip()] = val.strip().strip('"')`. -/
def buildArgs : List (List Char) → List (List Char × List Char) →
    List (List Char × List Char)
  | [], args => args
  | f :: rest, args =>
    match splitEq f with
    | some (kv : List Char × List Char) =>
      buildArgs rest (dictSet args (pyStrip kv.1) (pyStripChar '"' (pyStrip kv.2)))
    | none => buildArgs rest args

/-- `parse_action(line)`: parse an `Action:` line into `(tool_name, args)`. -/
def parse_action (line : List Char) :
    Option (List Char × List (List Char × List Char)) :=
  if (chars "Action:").isPrefixOf line then
    let s := pyStrip (line.drop (chars "Action:").length)
    match firstIdxOf '[' s, lastIdxOf ']' s with
    | some lb, some rb =>
      if rb < lb then none
      else
        let inner := pyStrip ((s.drop (lb + 1)).take (rb - (lb + 1)))
        some (pyStrip (s.take lb),
          if inner = [] then [] else buildArgs (splitOnComma inner) [])
    | _, _ => none
  else none

/-! ## Claims C4, C5 — quote stripping and comma splitting -/

lemma head?_dropWhile_false (p : Char → Bool) (l : List Char) :
    ∀ x, (l.dropWhile p).head? = some x → p x = false := by
  induction l with
  | nil => intro x h; simp [List.dropWhile] at h
  | cons c r ih =>
    intro x h
    by_cases hc : p c
    · rw [List.dropWhile_cons_of_pos hc] at h
      exact ih x h
    · rw [List.dropWhile_cons_of_neg hc] at h
      simp only [List.head?_cons, Option.some.injEq] at h
      subst h
      simpa using hc

lemma prefix_head?_eq {l m : List Char} (h : List.IsPrefix l m) :
    ∀ x, l.head? = some x → m.head? = some x := by
  obtain ⟨t, rfl⟩ := h
  intro x hx
  cases l with
  | nil => simp at hx
  | cons a r => simpa using hx

lemma pyStripChar_head (c : Char) (l : List Char) :
    (pyStripChar c l).head? ≠ some c := by
  intro h
  unfold pyStripChar at h
  have hsuf : List.IsSuffix ((l.dropWhile (· = c)).reverse.dropWhile (· = c))
      (l.dropWhile (· = c)).reverse := List.dropWhile_suffix _
  have hpre : List.IsPrefix ((l.dropWhile (· = c)).reverse.dropWhile (· = c)).reverse
      (l.dropWhile (· = c)) := by
    rw [← List.reverse_reverse (l.dropWhile (· = c))] at hsuf
    rw [← List.reverse_prefix] at hsuf
    simpa using hsuf
  have h2 := prefix_head?_eq hpre c h
  have h3 := head?_dropWhile_false (· = c) l c h2
  simp at h3

lemma pyStripChar_getLast (c : Char) (l : List Char) :
    (pyStripChar c l).getLast? ≠ some c := by
  intro h
  unfold pyStripChar at h
  rw [List.getLast?_reverse] at h
  have h3 := head?_dropWhile_false (· = c) (l.dropWhile (· = c)).reverse c h
  simp at h3

lemma dictSet_values (P : List Char → Prop) (k v : List Char) (hv : P v) :
    ∀ d, (∀ kv ∈ d, P kv.2) → ∀ kv ∈ dictSet d k v, P kv.2 := by
  intro d
  induction d with
  | nil =>
    intro _ kv hm
    simp only [dictSet, List.mem_singleton] at hm
    subst hm
    exact hv
  | cons p rest ih =>
    intro hd kv hm
    obtain ⟨k', v'⟩ := p
    simp only [dictSet] at hm
    split at hm
    · rcases List.mem_cons.mp hm with h1 | h1
      · subst h1; exact hv
      · exact hd kv (List.mem_cons_of_mem _ h1)
    · rcases List.mem_cons.mp hm with h1 | h1
      · subst h1; exact hd (k', v') (List.mem_cons_self _ _)
      · exact ih (fun kv2 hm2 => hd kv2 (List.mem_cons_of_mem _ hm2)) kv h1

lemma buildArgs_values (P : List Char → Prop)
    (hstrip : ∀ w, P (pyStripChar '"' (pyStrip w))) :
    ∀ fields args, (∀ kv ∈ args, P kv.2) → ∀ kv ∈ buildArgs fields args, P kv.2 := by
  intro fields
  induction fields with
  | nil => intro args h kv hm; exact h kv hm
  | cons f rest ih =>
    intro args h kv hm
    simp only [buildArgs] at hm
    cases hse : splitEq f with
    | none => rw [hse] at hm; exact ih args h kv hm
    | some pr =>
      rw [hse] at hm
      exact ih _ (dictSet_values P _ _ (hstrip pr.2) args h) kv hm

/-- C4 counterexample: `Action: search[query=""x""]` — the code's
`val.strip().strip('"')` removes ALL leading/trailing double quotes, so the
value parses to `x`, not to `"x"` with one pair of quotes remaining. -/
theorem parse_action_double_quotes_cx :
    parse_action (chars "Action: search[query=\"\"x\"\"]") ≠
        some (chars "search", [(chars "query", chars "\"x\"")]) ∧
      parse_action (chars "Action: search[query=\"\"x\"\"]") =
        some (chars "search", [(chars "query", chars "x")]) := by
  constructor
  · decide
  · decide

/-- C4 amended: `strip('"')` removes every leading and trailing double
quote, not at most a single pair: every value in a successful parse
neither starts nor ends with a double quote. -/
theorem parse_action_values_fully_stripped :
    ∀ line nm args, parse_action line = some (nm, args) →
      ∀ kv ∈ args, kv.2.head? ≠ some '"' ∧ kv.2.getLast? ≠ some '"' := by
  intro line nm args h kv hm
  simp only [parse_action] at h
  split at h
  · split at h
    · split at h
      · exact absurd h (by simp)
      · simp only [Option.some.injEq, Prod.mk.injEq] at h
        obtain ⟨-, ha⟩ := h
        subst ha
        split at hm
        · simp at hm
        · refine buildArgs_values
            (fun w => w.head? ≠ some '"' ∧ w.getLast? ≠ some '"')
            (fun w => ⟨pyStripChar_head '"' (pyStrip w), pyStripChar_getLast '"' (pyStrip w)⟩)
            _ [] (by simp) kv hm
    · exact absurd h (by simp)
  · exact absurd h (by simp)

/-- Witness for C4's amended theorem at the `""x""` input: the parsed value
is `x` and indeed neither starts nor ends with a quote. -/
theorem parse_action_values_fully_stripped_witness :
    parse_action (chars "Action: search[query=\"\"x\"\"]") =
        some (chars "search", [(chars "query", chars "x")]) ∧
      ((chars "x").head? ≠ some '"' ∧ (chars "x").getLast? ≠ some '"') :=
  ⟨by decide,
    parse_action_values_fully_stripped (chars "Action: search[query=\"\"x\"\"]")
      (chars "search") [(chars "query", chars "x")] (by decide)
      (chars "query", chars "x") (by decide)⟩

/-- C5 counterexample: `Action: search[query="a, b"]` — `inner.split(",")`
is not quote-aware, so the comma inside the quoted value splits the field
and the parsed args are NOT `{"query": "a, b"}`. -/
theorem parse_action_comma_cx :
    parse_action (chars "Action: search[query=\"a, b\"]") ≠
      some (chars "search", [(chars "query", chars "a, b")]) := by
  decide

/-- C5 amended: the bracket contents are split on EVERY comma, quoted or
not: `Action: search[query="a, b"]` parses to args `{"query": "a"}` (the
remainder `b"` has no `=` and is silently dropped). -/
theorem parse_action_comma_splits_inside_quotes :
    parse_action (chars "Action: search[query=\"a, b\"]") =
      some (chars "search", [(chars "query", chars "a")]) := by
  decide

/-! ## Output parser (`ReActAgent._parse_llm_output`) -/

/-- Split a string at the first occurrence of `needle`, returning the part
before it and the part after it (`none` when `needle` does not occur).
Models Python substring search (`in`, `split(needle, 1)`, `re` literal
scan). -/
def splitFirstSub (needle : List Char) : List Char → Option (List Char × List Char)
  | [] => if needle = [] then some ([], []) else none
  | c :: tl =>
    if needle.isPrefixOf (c :: tl) then some ([], (c :: tl).drop needle.length)
    else
      match splitFirstSub needle tl with
      | some pr => some (c :: pr.1, pr.2)
      | none => none

/-- Python `needle in s`. -/
def containsSub (needle l : List Char) : Bool := (splitFirstSub needle l).isSome

/-- The prefix of `l` before the first occurrence of `needle` (`l` itself
when `needle` does not occur): Python `s.split(needle, 1)[0]`. -/
def takeUntilSub (needle l : List Char) : List Char :=
  match splitFirstSub needle l with
  | some pr => pr.1
  | none => l

/-- The attempt of the regex `Action:\s*(.+?)(?:\n|$)` at one position,
given the text `l` right after the matched literal `Action:`.  The greedy
`\s*` first consumes the whole whitespace run; the lazy `(.+?)` then takes
characters up to the first newline or the end; if nothing is left, `\s*`
backtracks to let `(.+?)` capture a final non-newline whitespace
character. -/
def matchActionTail (l : List Char) : Option (List Char) :=
  let ws := l.takeWhile isPySpace
  let rest := l.dropWhile isPySpace
  match rest with
  | [] =>
    match ws.reverse.dropWhile (· = '\n') with
    | [] => none
    | c :: _ => some [c]
  | _ => some (rest.takeWhile (· ≠ '\n'))

/-- `re.search(r"Action:\s*(.+?)(?:\n|$)", out)`: scan left to right for an
`Action:` occurrence whose tail admits a match; return the capture group. -/
def findActionCapture : List Char → Option (List Char)
  | [] => none
  | c :: tl =>
    if (chars "Action:").isPrefixOf (c :: tl) then
      match matchActionTail ((c :: tl).drop (chars "Action:").length) with
      | some cap => some cap
      | none => findActionCapture tl
    else findActionCapture tl

/-- The group-1 capture of
`re.search(r"Thought:\s*(.*?)(?=Action:|$)", out, re.DOTALL)`: text after
the first `Thought:`, with leading whitespace consumed by the greedy
`\s*`, up to (but excluding) the next `Action:` occurrence or the end.
This match always succeeds when `Thought:` occurs in `out`. -/
def findThoughtCapture (out : List Char) : Option (List Char) :=
  (splitFirstSub (chars "Thought:") out).map
    (fun pr => takeUntilSub (chars "Action:") (pr.2.dropWhile isPySpace))

/-- The forced default action line `Action: finish[answer="(no answer)"]`. -/
def defaultActionLine : List Char := chars "Action: finish[answer=\"(no answer)\"]"

/-- `_parse_llm_output(out)`: extract `(thought, action_line)` from a raw
completion.  (The `verbose` print in the no-action branch is I/O only and
is not modelled.) -/
def parse_llm_output (out : List Char) : List Char × List Char :=
  if containsSub (chars "Action:") out then
    (if containsSub (chars "Thought:") out then
       match findThoughtCapture out with
       | some cap => pyStrip cap
       | none => chars "(no thought)"
     else pyStrip (takeUntilSub (chars "Action:") out),
     match findActionCapture out with
     | some cap => chars "Action: " ++ pyStrip cap
     | none => defaultActionLine)
  else (pyStrip out, defaultActionLine)

/-! ## Claim C8 — the output parser never fails -/

/-- C8: for every raw completion the Output Parser returns a well-formed
`(thought, action_line)` pair whose action side always starts with the
`Action:` marker; when the input contains no `Action:` marker the whole
trimmed input becomes the thought and the action defaults to the forced
`finish` call with the placeholder answer. -/
theorem parse_llm_output_total_and_default (out : List Char) :
    (chars "Action:").isPrefixOf (parse_llm_output out).2 = true ∧
      (containsSub (chars "Action:") out = false →
        parse_llm_output out = (pyStrip out, defaultActionLine)) := by
  have hpre : ∀ z : List Char,
      (chars "Action:").isPrefixOf (chars "Action: " ++ z) = true := by
    intro z
    rw [List.isPrefixOf_iff_prefix]
    exact ⟨' ' :: z, rfl⟩
  by_cases hc : containsSub (chars "Action:") out
  · constructor
    · rw [parse_llm_output, if_pos hc]
      cases hcap : findActionCapture out with
      | none => simp only [hcap]; decide
      | some cap => simpa using hpre (pyStrip cap)
    · intro hno
      rw [hno] at hc
      exact absurd hc (by simp)
  · have hc' : containsSub (chars "Action:") out = false := by
      simpa using hc
    constructor
    · rw [parse_llm_output, if_neg (by simp [hc'])]
      show (chars "Action:").isPrefixOf defaultActionLine = true
      decide
    · intro _
      rw [parse_llm_output, if_neg (by simp [hc'])]

/-- Witness for C8 at the marker-free completion `hello world`: the whole
input becomes the thought and the action defaults to the forced finish. -/
theorem parse_llm_output_total_witness :
    (chars "Action:").isPrefixOf (parse_llm_output (chars "hello world")).2 = true ∧
      parse_llm_output (chars "hello world") =
        (pyStrip (chars "hello world"), defaultActionLine) := by
  have h := parse_llm_output_total_and_default (chars "hello world")
  exact ⟨h.1, h.2 (by decide)⟩

/-! ## Observation payloads (`json.dumps` / `json.loads` in the agent)

The search observation is `json.dumps({"results": results}, indent=2)` and
the fallback answer re-serialises the parsed results with
`json.dumps(all_results[:3], indent=2)`.  Strings are serialised with
CPython's `ensure_ascii` escaping; the decoder below models `json.loads`
(followed by the `"results"` key check) on the payload shapes this program
produces, keeping every string field in its escaped form and the score in
its serialised form — faithful because re-serialising a parsed payload
reproduces the original text.  The float-to-decimal rendering of a score
is platform arithmetic; it enters the model as an explicit `numRepr`
parameter (any rendering without a newline character). -/

/-- Lower-case hexadecimal digit, as in CPython's `\uXXXX` escapes. -/
def hexDigit (n : ℕ) : Char :=
  if n < 10 then Char.ofNat (48 + n) else Char.ofNat (87 + n)

/-- A `\uXXXX` escape for a BMP code unit. -/
def uEsc (n : ℕ) : List Char :=
  ['\\', 'u', hexDigit (n / 4096 % 16), hexDigit (n / 256 % 16),
    hexDigit (n / 16 % 16), hexDigit (n % 16)]

/-- CPython `json` `ensure_ascii` escaping of one character: the two-char
escapes for `"`, `\`, and control characters with short forms; printable
ASCII unchanged; everything else as `\uXXXX` (a surrogate pair beyond the
BMP). -/
def escChar (c : Char) : List Char :=
  if c = '"' then ['\\', '"']
  else if c = '\\' then ['\\', '\\']
  else if c = '\n' then ['\\', 'n']
  else if c = '\x0d' then ['\\', 'r']
  else if c = '\t' then ['\\', 't']
  else if c = '\x08' then ['\\', 'b']
  else if c = '\x0c' then ['\\', 'f']
  else if 0x20 ≤ c.toNat ∧ c.toNat ≤ 0x7e then [c]
  else if c.toNat < 0x10000 then uEsc c.toNat
  else uEsc (0xd800 + (c.toNat - 0x10000) / 1024) ++ uEsc (0xdc00 + (c.toNat - 0x10000) % 1024)

/-- JSON string-body escaping of a whole string. -/
def escStr (s : List Char) : List Char := (s.map escChar).flatten

/-- One serialised result row, as text: the escaped id, the serialised
score, the escaped snippet. -/
structure TextItem where
  idT : List Char
  scoreT : List Char
  snipT : List Char
deriving DecidableEq

/-- The textual form of a `SearchResult` in a payload, given the score
rendering `numRepr`. -/
def toTextItem (numRepr : ℝ → List Char) (r : SearchResult) : TextItem :=
  ⟨escStr r.id, numRepr r.score, escStr r.snippet⟩

/-- One result object under `indent=2` at nesting depth 2 (inside
`{"results": [...]}`): keys at 6 spaces, braces at 4. -/
def encItem6 (it : TextItem) : List Char :=
  chars "\x7b\n      \"id\": \"" ++ it.idT ++
    chars "\",\n      \"score\": " ++ it.scoreT ++
    chars ",\n      \"snippet\": \"" ++ it.snipT ++ chars "\"\n    \x7d"

/-- One result object under `indent=2` at nesting depth 1 (inside a
top-level list): keys at 4 spaces, braces at 2. -/
def encItem4 (it : TextItem) : List Char :=
  chars "\x7b\n    \"id\": \"" ++ it.idT ++
    chars "\",\n    \"score\": " ++ it.scoreT ++
    chars ",\n    \"snippet\": \"" ++ it.snipT ++ chars "\"\n  \x7d"

/-- The item list of a non-empty `{"results": [...]}` payload: items
separated by `,\n    `, then the closing `\n  ]\n}`. -/
def encPayloadItems : List TextItem → List Char
  | [] => chars "\n  ]\n\x7d"
  | [it] => encItem6 it ++ chars "\n  ]\n\x7d"
  | it :: rest => encItem6 it ++ chars ",\n    " ++ encPayloadItems rest

/-- `json.dumps({"results": results}, indent=2)` with the given score
rendering. -/
def dumpsPayload (numRepr : ℝ → List Char) (results : List SearchResult) : List Char :=
  match results.map (toTextItem numRepr) with
  | [] => chars "\x7b\n  \"results\": []\n\x7d"
  | items => chars "\x7b\n  \"results\": [\n    " ++ encPayloadItems items

/-- The item list of a non-empty top-level JSON list: items separated by
`,\n  `, then the closing `\n]`. -/
def encTopItems : List TextItem → List Char
  | [] => chars "\n]"
  | [it] => encItem4 it ++ chars "\n]"
  | it :: rest => encItem4 it ++ chars ",\n  " ++ encTopItems rest

/-- `json.dumps(all_results, indent=2)` for a list of parsed result rows. -/
def dumpsTopList (items : List TextItem) : List Char :=
  match items with
  | [] => chars "[]"
  | _ => chars "[\n  " ++ encTopItems items

/-- Consume an exact literal prefix. -/
def chomp (p s : List Char) : Option (List Char) :=
  if p.isPrefixOf s then some (s.drop p.length) else none

/-- Parse one serialised result object (depth-2 form) and return it with
the remaining text. -/
def decodeItem (s : List Char) : Option (TextItem × List Char) :=
  match chomp (chars "\x7b\n      \"id\": \"") s with
  | none => none
  | some r1 =>
    let line1 := r1.takeWhile (fun c => c != '\n')
    let r2 := r1.dropWhile (fun c => c != '\n')
    if (chars "\",").isSuffixOf line1 then
      match chomp (chars "\n      \"score\": ") r2 with
      | none => none
      | some r3 =>
        let line2 := r3.takeWhile (fun c => c != '\n')
        let r4 := r3.dropWhile (fun c => c != '\n')
        if (chars ",").isSuffixOf line2 then
          match chomp (chars "\n      \"snippet\": \"") r4 with
          | none => none
          | some r5 =>
            let line3 := r5.takeWhile (fun c => c != '\n')
            let r6 := r5.dropWhile (fun c => c != '\n')
            if (chars "\"").isSuffixOf line3 then
              match chomp (chars "\n    \x7d") r6 with
              | none => none
              | some r7 =>
                some (⟨line1.dropLast.dropLast, line2.dropLast, line3.dropLast⟩, r7)
            else none
        else none
    else none

/-- Parse the item list of a non-empty payload (fuelled recursion; the
fuel is the length of the observation, always sufficient). -/
def decodeItems : ℕ → List Char → Option (List TextItem)
  | 0, _ => none
  | fuel + 1, s =>
    match decodeItem s with
    | none => none
    | some (it, r) =>
      if r = chars "\n  ]\n\x7d" then some [it]
      else
        match chomp (chars ",\n    ") r with
        | none => none
        | some r2 =>
          match decodeItems fuel r2 with
          | none => none
          | some rest => some (it :: rest)

/-- Model of `json.loads(obs)` followed by the `"results"` key check, for
the strings this agent stores as observations: result payloads decode to
their item rows; the diagnostic observations (and any other non-payload
text) are rejected, as `json.loads` raises on them. -/
def decodePayload (s : List Char) : Option (List TextItem) :=
  match chomp (chars "\x7b\n  \"results\": [") s with
  | none => none
  | some r =>
    if r = chars "]\n\x7d" then some []
    else
      match chomp (chars "\n    ") r with
      | none => none
      | some r2 => decodeItems s.length r2

/-! ## The control loop (`ReActAgent`) -/

/-- One row of the reasoning trace. -/
structure Step where
  thought : List Char
  action : List Char
  observation : List Char
deriving DecidableEq

/-- `AgentConfig(max_steps=6, allow_tools=("search", "finish"), verbose=True)`. -/
structure AgentConfig where
  max_steps : ℕ := 6
  allow_tools : List (List Char) := [chars "search", chars "finish"]
  verbose : Bool := true

/-- The final dict `{"answer": ..., "trajectory": [...]}` returned by `run`. -/
structure RunResult where
  answer : List Char
  trajectory : List Step
deriving DecidableEq

/-- The mutable state of a `ReActAgent` instance relevant to `run`:
its config, its `self.trajectory` list, and the corpus loaded at
construction time. -/
structure AgentState where
  config : AgentConfig
  trajectory : List Step
  corpus : List Document

/-- The fixed diagnostic observation for an unparsable action line. -/
def invalidObs : List Char :=
  chars "Invalid action format. Use: search[query=\"...\", k=3] or finish[answer=\"...\"]"

/-- `f"Unknown tool: {name}. Available tools: search, finish"`. -/
def unknownObs (name : List Char) : List Char :=
  chars "Unknown tool: " ++ name ++ chars ". Available tools: search, finish"

/-- The `SYSTEM_PREAMBLE` string of `make_prompt`. -/
def SYSTEM_PREAMBLE : List Char :=
  chars "You are a helpful ReAct agent. You may use tools to answer factual questions.\n\nAvailable tools:\n- search[query=\"<text>\", k=<int>] # searches the tech corpus\n- finish[answer=\"<final answer>\"] # ends the task\n\nFollow the exact step format:\nThought: <your reasoning>\nAction: <one of the tool calls above>\n\nIMPORTANT:\n- When you use finish[answer=...], provide a clear, well-structured paragraph that fully answers the user question.\n- The paragraph should be natural language, not just keywords.\n- You MUST call finish[] once you have enough information to answer.\n- Do not search more than 2-3 times before finishing.\n"

/-- `format_history(trajectory)`: three lines per step, joined by `\n`. -/
def format_history (trajectory : List Step) : List Char :=
  List.intercalate (chars "\n")
    (trajectory.flatMap fun st =>
      [chars "Thought: " ++ st.thought, chars "Action: " ++ st.action,
        chars "Observation: " ++ st.observation])

/-- `make_prompt(user_query, trajectory)`. -/
def make_prompt (user_query : List Char) (trajectory : List Step) : List Char :=
  if format_history trajectory ≠ [] then
    SYSTEM_PREAMBLE ++ chars "\n\nUser Question: " ++ user_query ++ chars "\n\n" ++
      format_history trajectory ++ chars "\n\nNext step:"
  else
    SYSTEM_PREAMBLE ++ chars "\n\nUser Question: " ++ user_query ++ chars "\n\nBegin:"

/-- Digits of a Python `int()` literal after the sign: decimal digits with
single underscores allowed between digits. -/
def digitsVal : ℕ → List Char → Option ℕ
  | acc, [] => some acc
  | _, ['_'] => none
  | acc, '_' :: c :: rest =>
    if c.isDigit then digitsVal (acc * 10 + (c.toNat - 48)) rest else none
  | acc, c :: rest =>
    if c.isDigit then digitsVal (acc * 10 + (c.toNat - 48)) rest else none

/-- Python `int(s)` on a string (ASCII model): strip whitespace, optional
sign, decimal digits; `none` models `ValueError`. -/
def pyInt (l : List Char) : Option ℤ :=
  match pyStrip l with
  | [] => none
  | '+' :: r =>
    match r with
    | c :: _ => if c.isDigit then (digitsVal 0 r).map (fun n => (n : ℤ)) else none
    | [] => none
  | '-' :: r =>
    match r with
    | c :: _ => if c.isDigit then (digitsVal 0 r).map (fun n => -(n : ℤ)) else none
    | [] => none
  | c :: r =>
    if c.isDigit then (digitsVal 0 (c :: r)).map (fun n => (n : ℤ)) else none

/-- `args.get(key)` on the parsed argument dict. -/
def dictGetS (d : List (List Char × List Char)) (k : List Char) : Option (List Char) :=
  match d with
  | [] => none
  | kv :: rest => if kv.1 = k then some kv.2 else dictGetS rest k

/-- The tool-name literal `"search"`. -/
def searchLit : List Char := chars "search"

/-- The tool-name literal `"finish"`. -/
def finishLit : List Char := chars "finish"

/-- One iteration of the loop body of `ReActAgent.run`: build the prompt,
call the model, parse, dispatch.  Returns the `Step` appended to the
trajectory and `some answer` exactly when the tool was `finish` (the
loop's early `return`); `verbose` printing and `save_run` I/O are not
modelled. -/
noncomputable def iterate (numRepr : ℝ → List Char) (llm : List Char → List Char)
    (corpus : List Document) (user_query : List Char) (traj : List Step) :
    Step × Option (List Char) :=
  match parse_llm_output (llm (make_prompt user_query traj)),
      parse_action (parse_llm_output (llm (make_prompt user_query traj))).2 with
  | ta, none => (⟨ta.1, ta.2, invalidObs⟩, none)
  | ta, some na =>
    if na.1 = searchLit then
      (⟨ta.1, ta.2,
        dumpsPayload numRepr
          (search_corpus ((dictGetS na.2 (chars "query")).getD []) corpus
            (match dictGetS na.2 (chars "k") with
             | none => 3
             | some s => (pyInt s).getD 3))⟩, none)
    else if na.1 = finishLit then
      (⟨ta.1, ta.2, chars "done"⟩, some ((dictGetS na.2 (chars "answer")).getD []))
    else (⟨ta.1, ta.2, unknownObs na.1⟩, none)

/-- The scan of `_generate_fallback_answer`: walk the trajectory, skip
empty and `"done"` observations, `json.loads` the rest and extend with any
`results` payload. -/
def collectScan : List Step → List TextItem
  | [] => []
  | st :: rest =>
    (if st.observation ≠ [] ∧ st.observation ≠ chars "done" then
      (decodePayload st.observation).getD []
    else []) ++ collectScan rest

/-- `_generate_fallback_answer` (its unused `user_query` parameter is
dropped): the first 3 collected results, or the no-final-answer sentinel. -/
def generate_fallback_answer (traj : List Step) : List Char :=
  if collectScan traj ≠ [] then
    chars "Based on search results: " ++ dumpsTopList ((collectScan traj).take 3)
  else chars "(max steps reached, no final answer)"

/-- The `for step_idx in range(max_steps)` loop of `run`, with the
remaining step budget as fuel: `finish` returns early with its answer;
exhausting the budget synthesises the fallback answer from the final
trajectory. -/
noncomputable def runLoop (numRepr : ℝ → List Char) (llm : List Char → List Char)
    (corpus : List Document) (user_query : List Char) :
    ℕ → List Step → RunResult
  | 0, traj => ⟨generate_fallback_answer traj, traj⟩
  | fuel + 1, traj =>
    match iterate numRepr llm corpus user_query traj with
    | (st, some ans) => ⟨ans, traj ++ [st]⟩
    | (st, none) => runLoop numRepr llm corpus user_query fuel (traj ++ [st])

/-- `ReActAgent.run(user_query)`: `self.trajectory.clear()` makes the loop
start from the empty trajectory whatever the previous run left in
`st.trajectory`; then the step loop runs with budget `max_steps`.
(`save_run`, the run recorder, is file I/O and is not modelled.) -/
noncomputable def agentRun (numRepr : ℝ → List Char) (llm : List Char → List Char)
    (st : AgentState) (user_query : List Char) : RunResult :=
  runLoop numRepr llm st.corpus user_query st.config.max_steps []

/-- Does a parsed action name the `finish` tool? -/
def isFinishCall (o : Option (List Char × List (List Char × List Char))) : Bool :=
  match o with
  | some na => na.1 = finishLit
  | none => false

/-- The search results collected across a run, in order (the spec's
"collected search results across the whole run"), mirroring the loop. -/
noncomputable def iterItems (numRepr : ℝ → List Char) (llm : List Char → List Char)
    (corpus : List Document) (user_query : List Char) (traj : List Step) :
    List TextItem :=
  match parse_action (parse_llm_output (llm (make_prompt user_query traj))).2 with
  | none => []
  | some na =>
    if na.1 = searchLit then
      (search_corpus ((dictGetS na.2 (chars "query")).getD []) corpus
        (match dictGetS na.2 (chars "k") with
         | none => 3
         | some s => (pyInt s).getD 3)).map (toTextItem numRepr)
    else []

/-- All search results produced during a run of the loop, in order. -/
noncomputable def runSearchItems (numRepr : ℝ → List Char) (llm : List Char → List Char)
    (corpus : List Document) (user_query : List Char) :
    ℕ → List Step → List TextItem
  | 0, _ => []
  | fuel + 1, traj =>
    match iterate numRepr llm corpus user_query traj with
    | (_, some _) => iterItems numRepr llm corpus user_query traj
    | (st, none) =>
      iterItems numRepr llm corpus user_query traj ++
        runSearchItems numRepr llm corpus user_query fuel (traj ++ [st])

/-! ## Claims C7, C9, C10 — control-loop behaviour -/

/-- C7: with `max_steps = 1` and a model output that is only the finish
call `Action: finish[answer="X"]`, the run terminates with answer `X` and
a trajectory of exactly one step — for any score rendering, corpus,
query, prior trajectory, tool list and verbosity. -/
theorem run_finish_first_step (numRepr : ℝ → List Char) (corpus : List Document)
    (q : List Char) (t0 : List Step) (tools : List (List Char)) (vb : Bool) :
    (agentRun numRepr (fun _ => chars "Action: finish[answer=\"X\"]")
        ⟨⟨1, tools, vb⟩, t0, corpus⟩ q).answer = chars "X" ∧
      (agentRun numRepr (fun _ => chars "Action: finish[answer=\"X\"]")
          ⟨⟨1, tools, vb⟩, t0, corpus⟩ q).trajectory.length = 1 :=
  ⟨rfl, rfl⟩

/-- C9: `run` clears `self.trajectory` before its first step, so its
result does not depend on whatever trajectory a previous run on the same
agent instance left behind. -/
theorem run_clears_prior_trajectory (numRepr : ℝ → List Char)
    (llm : List Char → List Char) (cfg : AgentConfig) (corpus : List Document)
    (t1 t2 : List Step) (q : List Char) :
    agentRun numRepr llm ⟨cfg, t1, corpus⟩ q = agentRun numRepr llm ⟨cfg, t2, corpus⟩ q :=
  rfl

/-- C10: tool dispatch never reads `allow_tools` — two runs that differ
only in that field are identical — and the unknown-tool observation
always ends with the fixed text `search, finish`. -/
theorem run_ignores_allow_tools (numRepr : ℝ → List Char)
    (llm : List Char → List Char) (corpus : List Document) (q : List Char)
    (ms : ℕ) (tools1 tools2 : List (List Char)) (vb : Bool) (t0 : List Step) :
    agentRun numRepr llm ⟨⟨ms, tools1, vb⟩, t0, corpus⟩ q =
        agentRun numRepr llm ⟨⟨ms, tools2, vb⟩, t0, corpus⟩ q ∧
      ∀ name : List Char,
        unknownObs name =
          (chars "Unknown tool: " ++ name ++ chars ". Available tools: ") ++
            chars "search, finish" := by
  refine ⟨rfl, fun name => ?_⟩
  rw [unknownObs,
    show chars ". Available tools: search, finish" =
      chars ". Available tools: " ++ chars "search, finish" from by decide]
  simp [List.append_assoc]

/-! ## Claim C2 — step exhaustion and the fallback answer -/

lemma chomp_append (p r : List Char) : chomp p (p ++ r) = some r := by
  unfold chomp
  rw [if_pos, List.drop_left]
  rw [List.isPrefixOf_iff_prefix]
  exact List.prefix_append p r

lemma takeWhile_ne_line (x y : List Char) (hx : '\n' ∉ x) :
    (x ++ '\n' :: y).takeWhile (fun c => c != '\n') = x := by
  induction x with
  | nil => simp
  | cons a r ih =>
    have ha : (a != '\n') = true := by
      simp only [bne_iff_ne, ne_eq]
      exact fun h => hx (h ▸ List.mem_cons_self a r)
    have hr : '\n' ∉ r := fun h => hx (List.mem_cons_of_mem _ h)
    simp only [List.cons_append, List.takeWhile_cons, ha, if_true]
    rw [ih hr]

lemma dropWhile_ne_line (x y : List Char) (hx : '\n' ∉ x) :
    (x ++ '\n' :: y).dropWhile (fun c => c != '\n') = '\n' :: y := by
  induction x with
  | nil => simp
  | cons a r ih =>
    have ha : (a != '\n') = true := by
      simp only [bne_iff_ne, ne_eq]
      exact fun h => hx (h ▸ List.mem_cons_self a r)
    have hr : '\n' ∉ r := fun h => hx (List.mem_cons_of_mem _ h)
    simp only [List.cons_append, List.dropWhile_cons, ha, if_true]
    exact ih hr

lemma dropLast_two (x : List Char) (a b : Char) :
    (x ++ [a, b]).dropLast.dropLast = x := by
  rw [show x ++ [a, b] = (x ++ [a]) ++ [b] from by simp,
    List.dropLast_concat, List.dropLast_concat]

lemma isSuffixOf_append_self (s x : List Char) : s.isSuffixOf (x ++ s) = true := by
  rw [List.isSuffixOf_iff_suffix]
  exact List.suffix_append x s

lemma hexDigit_ne_newline (n : ℕ) (hn : n < 16) : hexDigit n ≠ '\n' := by
  interval_cases n <;> decide

lemma uEsc_ne_newline (n : ℕ) : '\n' ∉ uEsc n := by
  intro h
  have h16 : ∀ m : ℕ, m % 16 < 16 := fun m => Nat.mod_lt _ (by norm_num)
  simp only [uEsc, List.mem_cons, List.not_mem_nil, or_false] at h
  rcases h with h | h | h | h | h | h
  · exact absurd h (by decide)
  · exact absurd h (by decide)
  · exact hexDigit_ne_newline _ (h16 _) h.symm
  · exact hexDigit_ne_newline _ (h16 _) h.symm
  · exact hexDigit_ne_newline _ (h16 _) h.symm
  · exact hexDigit_ne_newline _ (h16 _) h.symm

lemma escChar_ne_newline (c : Char) : '\n' ∉ escChar c := by
  unfold escChar
  split_ifs with h1 h2 h3 h4 h5 h6 h7 h8 h9
  · decide
  · decide
  · decide
  · decide
  · decide
  · decide
  · decide
  · intro hm
    simp only [List.mem_singleton] at hm
    rw [← hm] at h8
    exact absurd h8.1 (by decide)
  · exact uEsc_ne_newline _
  · intro hm
    rcases List.mem_append.mp hm with hm | hm
    · exact uEsc_ne_newline _ hm
    · exact uEsc_ne_newline _ hm

lemma escStr_ne_newline (s : List Char) : '\n' ∉ escStr s := by
  intro h
  simp only [escStr, List.mem_flatten, List.mem_map] at h
  obtain ⟨l, ⟨c, _, rfl⟩, hl⟩ := h
  exact escChar_ne_newline c hl

lemma decodeItem_round (it : TextItem) (rest : List Char)
    (h1 : '\n' ∉ it.idT) (h2 : '\n' ∉ it.scoreT) (h3 : '\n' ∉ it.snipT) :
    decodeItem (encItem6 it ++ rest) = some (it, rest) := by
  obtain ⟨idT, scoreT, snipT⟩ := it
  have hx1 : '\n' ∉ idT ++ ['"', ','] := by
    intro hm
    rcases List.mem_append.mp hm with hm | hm
    · exact h1 hm
    · exact absurd hm (by decide)
  have hx2 : '\n' ∉ scoreT ++ [','] := by
    intro hm
    rcases List.mem_append.mp hm with hm | hm
    · exact h2 hm
    · exact absurd hm (by decide)
  have hx3 : '\n' ∉ snipT ++ ['"'] := by
    intro hm
    rcases List.mem_append.mp hm with hm | hm
    · exact h3 hm
    · exact absurd hm (by decide)
  have hshape : encItem6 ⟨idT, scoreT, snipT⟩ ++ rest =
      chars "\x7b\n      \"id\": \"" ++
        ((idT ++ ['"', ',']) ++ '\n' ::
          (chars "      \"score\": " ++
            ((scoreT ++ [',']) ++ '\n' ::
              (chars "      \"snippet\": \"" ++
                ((snipT ++ ['"']) ++ '\n' ::
                  (chars "    \x7d" ++ rest)))))) := by
    simp only [encItem6]
    rw [show chars "\",\n      \"score\": " =
          ['"', ','] ++ '\n' :: chars "      \"score\": " from rfl,
      show chars ",\n      \"snippet\": \"" =
          [','] ++ '\n' :: chars "      \"snippet\": \"" from rfl,
      show chars "\"\n    \x7d" = ['"'] ++ '\n' :: chars "    \x7d" from rfl]
    simp [List.append_assoc]
  rw [hshape]
  simp only [decodeItem, chomp_append, takeWhile_ne_line _ _ hx1,
    dropWhile_ne_line _ _ hx1,
    show (chars "\",") = ['"', ','] from rfl, isSuffixOf_append_self,
    if_true, dropLast_two]
  rw [show ('\n' :: (chars "      \"score\": " ++
        ((scoreT ++ [',']) ++ '\n' ::
          (chars "      \"snippet\": \"" ++
            ((snipT ++ ['"']) ++ '\n' :: (chars "    \x7d" ++ rest)))))) =
      chars "\n      \"score\": " ++
        ((scoreT ++ [',']) ++ '\n' ::
          (chars "      \"snippet\": \"" ++
            ((snipT ++ ['"']) ++ '\n' :: (chars "    \x7d" ++ rest)))) from rfl]
  simp only [chomp_append, takeWhile_ne_line _ _ hx2, dropWhile_ne_line _ _ hx2,
    show (chars ",") = [','] from rfl, isSuffixOf_append_self, if_true,
    List.dropLast_concat]
  rw [show ('\n' :: (chars "      \"snippet\": \"" ++
        ((snipT ++ ['"']) ++ '\n' :: (chars "    \x7d" ++ rest)))) =
      chars "\n      \"snippet\": \"" ++
        ((snipT ++ ['"']) ++ '\n' :: (chars "    \x7d" ++ rest)) from rfl]
  simp only [chomp_append, takeWhile_ne_line _ _ hx3, dropWhile_ne_line _ _ hx3,
    show (chars "\"") = ['"'] from rfl, isSuffixOf_append_self, if_true,
    List.dropLast_concat]
  rw [show ('\n' :: (chars "    \x7d" ++ rest)) = chars "\n    \x7d" ++ rest from rfl]
  simp only [chomp_append]

lemma encItem6_head (it : TextItem) : ∃ t, encItem6 it = '\x7b' :: t := ⟨_, rfl⟩

lemma encPayloadItems_length_ge (items : List TextItem) :
    items.length ≤ (encPayloadItems items).length := by
  induction items with
  | nil => simp
  | cons it rest ih =>
    obtain ⟨t, ht⟩ := encItem6_head it
    cases rest with
    | nil =>
      simp only [encPayloadItems, List.length_append, List.length_cons,
        List.length_nil, ht]
      omega
    | cons it2 rest2 =>
      simp only [encPayloadItems] at ih ⊢
      simp only [List.length_append, List.length_cons, ht] at ih ⊢
      omega

lemma decodeItems_round (items : List TextItem) (hne : items ≠ [])
    (hnl : ∀ it ∈ items, '\n' ∉ it.idT ∧ '\n' ∉ it.scoreT ∧ '\n' ∉ it.snipT) :
    ∀ fuel, items.length ≤ fuel →
      decodeItems fuel (encPayloadItems items) = some items := by
  induction items with
  | nil => exact absurd rfl hne
  | cons it rest ih =>
    intro fuel hf
    obtain ⟨f, rfl⟩ : ∃ f, fuel = f + 1 :=
      ⟨fuel - 1, by simp at hf; omega⟩
    have hit := hnl it (List.mem_cons_self _ _)
    cases rest with
    | nil =>
      simp only [encPayloadItems, decodeItems,
        decodeItem_round it _ hit.1 hit.2.1 hit.2.2]
      simp
    | cons it2 rest2 =>
      have hsep : ¬ (chars ",\n    " ++ encPayloadItems (it2 :: rest2) =
          chars "\n  ]\n\x7d") := by
        rw [show chars ",\n    " = ',' :: chars "\n    " from rfl,
          show chars "\n  ]\n\x7d" = '\n' :: chars "  ]\n\x7d" from rfl]
        intro hbad
        simp only [List.cons_append, List.cons.injEq] at hbad
        exact absurd hbad.1 (by decide)
      rw [show encPayloadItems (it :: it2 :: rest2) =
          encItem6 it ++ (chars ",\n    " ++ encPayloadItems (it2 :: rest2)) from by
        simp [encPayloadItems, List.append_assoc]]
      simp only [decodeItems, decodeItem_round it _ hit.1 hit.2.1 hit.2.2]
      rw [if_neg hsep, chomp_append]
      simp only [ih (by simp) (fun x hx => hnl x (List.mem_cons_of_mem _ hx)) f
        (by simp at hf ⊢; omega)]

lemma decodePayload_round (numRepr : ℝ → List Char)
    (hNR : ∀ x : ℝ, '\n' ∉ numRepr x) (rs : List SearchResult) :
    decodePayload (dumpsPayload numRepr rs) = some (rs.map (toTextItem numRepr)) := by
  cases rs with
  | nil => rfl
  | cons r rest =>
    have hnl : ∀ it ∈ toTextItem numRepr r :: rest.map (toTextItem numRepr),
        '\n' ∉ it.idT ∧ '\n' ∉ it.scoreT ∧ '\n' ∉ it.snipT := by
      intro it hm
      rcases List.mem_cons.mp hm with hm | hm
      · subst hm
        exact ⟨escStr_ne_newline _, hNR _, escStr_ne_newline _⟩
      · obtain ⟨x, _, rfl⟩ := List.mem_map.mp hm
        exact ⟨escStr_ne_newline _, hNR _, escStr_ne_newline _⟩
    have hend : ¬ (chars "\n    " ++
        encPayloadItems (toTextItem numRepr r :: rest.map (toTextItem numRepr)) =
          chars "]\n\x7d") := by
      rw [show chars "\n    " = '\n' :: chars "    " from rfl,
        show chars "]\n\x7d" = ']' :: chars "\n\x7d" from rfl]
      intro hbad
      simp only [List.cons_append, List.cons.injEq] at hbad
      exact absurd hbad.1 (by decide)
    unfold dumpsPayload
    simp only [List.map_cons]
    rw [show chars "\x7b\n  \"results\": [\n    " =
        chars "\x7b\n  \"results\": [" ++ chars "\n    " from rfl,
      List.append_assoc]
    have hlen := encPayloadItems_length_ge
      (toTextItem numRepr r :: rest.map (toTextItem numRepr))
    have hfe : (toTextItem numRepr r :: rest.map (toTextItem numRepr)).length ≤
        (chars "\x7b\n  \"results\": [" ++ (chars "\n    " ++
          encPayloadItems (toTextItem numRepr r :: rest.map (toTextItem numRepr)))).length := by
      simp only [List.length_append, List.length_map, List.length_cons] at hlen ⊢
      omega
    unfold decodePayload
    rw [chomp_append]
    simp only [if_neg hend]
    rw [chomp_append]
    simp only [decodeItems_round _ (by simp) hnl _ hfe]

lemma decodePayload_invalidObs : decodePayload invalidObs = none := by decide

lemma decodePayload_unknownObs (name : List Char) :
    decodePayload (unknownObs name) = none := by
  have hcons : unknownObs name =
      'U' :: (chars "nknown tool: " ++ (name ++ chars ". Available tools: search, finish")) := by
    rw [unknownObs, show chars "Unknown tool: " = 'U' :: chars "nknown tool: " from rfl]
    simp [List.append_assoc]
  have hnp : ¬ ((chars "\x7b\n  \"results\": [").isPrefixOf
      ('U' :: (chars "nknown tool: " ++
        (name ++ chars ". Available tools: search, finish"))) = true) := by
    rw [List.isPrefixOf_iff_prefix]
    intro hpre
    rw [show chars "\x7b\n  \"results\": [" =
        '\x7b' :: chars "\n  \"results\": [" from rfl] at hpre
    obtain ⟨t, ht⟩ := hpre
    simp only [List.cons_append, List.cons.injEq] at ht
    exact absurd ht.1 (by decide)
  rw [hcons]
  unfold decodePayload chomp
  rw [if_neg hnp]

lemma dumpsPayload_ne_nil_and_done (nr : ℝ → List Char) (rs : List SearchResult) :
    dumpsPayload nr rs ≠ [] ∧ dumpsPayload nr rs ≠ chars "done" := by
  unfold dumpsPayload
  cases hm : rs.map (toTextItem nr) with
  | nil => exact ⟨by decide, by decide⟩
  | cons a t =>
    rw [show chars "\x7b\n  \"results\": [\n    " =
        '\x7b' :: chars "\n  \"results\": [\n    " from rfl]
    constructor
    · simp
    · rw [show chars "done" = 'd' :: chars "one" from rfl]
      intro hbad
      simp only [List.cons_append, List.cons.injEq] at hbad
      exact absurd hbad.1 (by decide)

lemma iterate_no_finish (nr : ℝ → List Char) (llm : List Char → List Char)
    (corpus : List Document) (q : List Char)
    (hNF : ∀ p, isFinishCall (parse_action (parse_llm_output (llm p)).2) = false)
    (traj : List Step) : (iterate nr llm corpus q traj).2 = none := by
  have h := hNF (make_prompt q traj)
  unfold iterate
  cases hpa : parse_action (parse_llm_output (llm (make_prompt q traj))).2 with
  | none => simp only [hpa]
  | some na =>
    rw [hpa] at h
    simp only [isFinishCall, decide_eq_false_iff_not] at h
    simp only [hpa]
    split_ifs with h1 <;> rfl

lemma collectScan_append (a b : List Step) :
    collectScan (a ++ b) = collectScan a ++ collectScan b := by
  induction a with
  | nil => simp [collectScan]
  | cons st r ih => simp [collectScan, ih, List.append_assoc]

lemma iterate_collect (nr : ℝ → List Char) (llm : List Char → List Char)
    (corpus : List Document) (q : List Char) (traj : List Step)
    (hNR : ∀ x : ℝ, '\n' ∉ nr x) :
    collectScan [(iterate nr llm corpus q traj).1] =
      iterItems nr llm corpus q traj := by
  unfold iterate iterItems
  cases hpa : parse_action (parse_llm_output (llm (make_prompt q traj))).2 with
  | none =>
    simp only [hpa]
    simp [collectScan, decodePayload_invalidObs,
      (by decide : invalidObs ≠ []), (by decide : invalidObs ≠ chars "done")]
  | some na =>
    simp only [hpa]
    split_ifs with h1 h2
    · have hg := dumpsPayload_ne_nil_and_done nr
        (search_corpus ((dictGetS na.2 (chars "query")).getD []) corpus
          (match dictGetS na.2 (chars "k") with
           | none => 3
           | some s => (pyInt s).getD 3))
      simp [collectScan, hg.1, hg.2, decodePayload_round nr hNR]
    · simp [collectScan]
    · simp [collectScan, decodePayload_unknownObs na.1]

lemma runLoop_length (nr : ℝ → List Char) (llm : List Char → List Char)
    (corpus : List Document) (q : List Char)
    (hNF : ∀ p, isFinishCall (parse_action (parse_llm_output (llm p)).2) = false) :
    ∀ fuel traj,
      (runLoop nr llm corpus q fuel traj).trajectory.length = traj.length + fuel := by
  intro fuel
  induction fuel with
  | zero => intro traj; simp [runLoop]
  | succ n ih =>
    intro traj
    have h2 := iterate_no_finish nr llm corpus q hNF traj
    rcases hit : iterate nr llm corpus q traj with ⟨st, o⟩
    rw [hit] at h2
    simp only at h2
    subst h2
    simp only [runLoop, hit, ih (traj ++ [st]), List.length_append,
      List.length_cons, List.length_nil]
    omega

lemma runLoop_answer (nr : ℝ → List Char) (llm : List Char → List Char)
    (corpus : List Document) (q : List Char)
    (hNF : ∀ p, isFinishCall (parse_action (parse_llm_output (llm p)).2) = false) :
    ∀ fuel traj,
      (runLoop nr llm corpus q fuel traj).answer =
        generate_fallback_answer (runLoop nr llm corpus q fuel traj).trajectory := by
  intro fuel
  induction fuel with
  | zero => intro traj; simp [runLoop]
  | succ n ih =>
    intro traj
    have h2 := iterate_no_finish nr llm corpus q hNF traj
    rcases hit : iterate nr llm corpus q traj with ⟨st, o⟩
    rw [hit] at h2
    simp only at h2
    subst h2
    simp only [runLoop, hit, ih (traj ++ [st])]

lemma runLoop_collect (nr : ℝ → List Char) (llm : List Char → List Char)
    (corpus : List Document) (q : List Char)
    (hNF : ∀ p, isFinishCall (parse_action (parse_llm_output (llm p)).2) = false)
    (hNR : ∀ x : ℝ, '\n' ∉ nr x) :
    ∀ fuel traj,
      collectScan (runLoop nr llm corpus q fuel traj).trajectory =
        collectScan traj ++ runSearchItems nr llm corpus q fuel traj := by
  intro fuel
  induction fuel with
  | zero => intro traj; simp [runLoop, runSearchItems]
  | succ n ih =>
    intro traj
    have h2 := iterate_no_finish nr llm corpus q hNF traj
    rcases hit : iterate nr llm corpus q traj with ⟨st, o⟩
    rw [hit] at h2
    simp only at h2
    subst h2
    have hstep : collectScan [st] = iterItems nr llm corpus q traj := by
      have := iterate_collect nr llm corpus q traj hNR
      rw [hit] at this
      exact this
    simp only [runLoop, runSearchItems, hit, ih (traj ++ [st]),
      collectScan_append, hstep, List.append_assoc]

/-- C2: when the model never produces a `finish` call, the loop runs all
`max_steps` iterations, the final trajectory has exactly `max_steps`
steps, and the synthesized fallback answer is built from at most the
first 3 search results collected across the whole run — or the fixed
no-final-answer sentinel when none were collected. -/
theorem run_without_finish_exhausts_steps (numRepr : ℝ → List Char)
    (llm : List Char → List Char) (ms : ℕ) (tools : List (List Char)) (vb : Bool)
    (t0 : List Step) (corpus : List Document) (q : List Char)
    (hNF : ∀ p, isFinishCall (parse_action (parse_llm_output (llm p)).2) = false)
    (hNR : ∀ x : ℝ, '\n' ∉ numRepr x) :
    (agentRun numRepr llm ⟨⟨ms, tools, vb⟩, t0, corpus⟩ q).trajectory.length = ms ∧
      (agentRun numRepr llm ⟨⟨ms, tools, vb⟩, t0, corpus⟩ q).answer =
        (if runSearchItems numRepr llm corpus q ms [] = [] then
          chars "(max steps reached, no final answer)"
        else
          chars "Based on search results: " ++
            dumpsTopList ((runSearchItems numRepr llm corpus q ms []).take 3)) := by
  constructor
  · simpa [agentRun] using runLoop_length numRepr llm corpus q hNF ms []
  · have ha := runLoop_answer numRepr llm corpus q hNF ms []
    have hc := runLoop_collect numRepr llm corpus q hNF hNR ms []
    rw [show collectScan [] = [] from rfl, List.nil_append] at hc
    rw [agentRun]
    simp only [ha, generate_fallback_answer, hc]
    by_cases hempty : runSearchItems numRepr llm corpus q ms [] = []
    · simp [hempty]
    · simp [hempty]

/-- Witness for C2: a model that always answers with a search call, an
empty corpus, `max_steps = 2`, and the digit-string score rendering. -/
theorem run_without_finish_witness :
    ((agentRun (fun _ => [Char.ofNat 48])
        (fun _ => chars "Thought: look\nAction: search[query=\"ai\", k=2]")
        ⟨⟨2, [chars "search", chars "finish"], true⟩, [], []⟩
        (chars "latest ai news")).trajectory.length = 2 ∧
      (agentRun (fun _ => [Char.ofNat 48])
          (fun _ => chars "Thought: look\nAction: search[query=\"ai\", k=2]")
          ⟨⟨2, [chars "search", chars "finish"], true⟩, [], []⟩
          (chars "latest ai news")).answer =
        (if runSearchItems (fun _ => [Char.ofNat 48])
            (fun _ => chars "Thought: look\nAction: search[query=\"ai\", k=2]") []
            (chars "latest ai news") 2 [] = [] then
          chars "(max steps reached, no final answer)"
        else
          chars "Based on search results: " ++
            dumpsTopList ((runSearchItems (fun _ => [Char.ofNat 48])
              (fun _ => chars "Thought: look\nAction: search[query=\"ai\", k=2]") []
              (chars "latest ai news") 2 []).take 3))) :=
  run_without_finish_exhausts_steps (fun _ => [Char.ofNat 48])
    (fun _ => chars "Thought: look\nAction: search[query=\"ai\", k=2]")
    2 [chars "search", chars "finish"] true [] []
    (chars "latest ai news")
    (fun p => by
      change isFinishCall (parse_action (parse_llm_output
        (chars "Thought: look\nAction: search[query=\"ai\", k=2]")).2) = false
      decide)
    (fun x => by
      change '\n' ∉ [Char.ofNat 48]
      decide)
